import Mathlib

/-!
Verification of the CPA (compositional perturbation autoencoder) repository:
a shallow embedding of the claim-relevant parts of `cpa/_module.py` and
`cpa/_model.py`, with tensors over `ℚ` modelled as (lists of) lists.
Learned network components (encoders, classifier heads, embedding tables)
are arbitrary parameters of the model, so they appear as function arguments.
-/

/-- Elementwise addition of two vectors (torch broadcasting-free `+` on
equal-length 1-d tensors); `zipWith` truncates exactly like a shape check. -/
def vecAdd (a b : List ℚ) : List ℚ := List.zipWith (· + ·) a b

/-- `t.sum(0)` for a 2-d tensor given as a list of rows: elementwise sum of
all rows, starting from the zero vector of width `n`. -/
def sumRows (n : Nat) (rows : List (List ℚ)) : List ℚ :=
  rows.foldl vecAdd (List.replicate n 0)

/-- `t.mean()` over a full 2-d tensor: sum of all entries divided by the
number of entries. -/
def tmean (rows : List (List ℚ)) : ℚ :=
  (rows.map List.sum).sum / ((rows.map List.length).sum : ℚ)

/-- Elementwise unary op on a 2-d tensor. -/
def matMap (f : ℚ → ℚ) (rows : List (List ℚ)) : List (List ℚ) :=
  rows.map (List.map f)

/-- Elementwise binary op on two 2-d tensors of equal shape. -/
def matZipWith (f : ℚ → ℚ → ℚ) (a b : List (List ℚ)) : List (List ℚ) :=
  List.zipWith (List.zipWith f) a b

/-- Three-argument `zipWith`. -/
def zipWith3 (f : ℚ → ℚ → ℚ → ℚ) : List ℚ → List ℚ → List ℚ → List ℚ
  | a :: as, b :: bs, c :: cs => f a b c :: zipWith3 f as bs cs
  | _, _, _ => []

/-- Elementwise ternary op on three 2-d tensors of equal shape. -/
def matZipWith3 (f : ℚ → ℚ → ℚ → ℚ) : List (List ℚ) → List (List ℚ) → List (List ℚ) → List (List ℚ)
  | a :: as, b :: bs, c :: cs => zipWith3 f a b c :: matZipWith3 f as bs cs
  | _, _, _ => []

namespace CPAModule

/-- Output of `CPAModule.generative` (`_module.py` lines 271-299): for the
Gaussian decoder a dict with `means` and `variances`; for the NB decoder a
dict with only the count distribution parameters (`dist_px`, i.e. the decoder
rates `mu` and the learned per-gene dispersion `px_r`). -/
inductive GenerativeOutputs where
  | gaussOut (means variances : List (List ℚ))
  | nbOut (mu : List (List ℚ)) (px_r : List ℚ)

/-- `generative_outputs["means"]`: a KeyError for the NB variant, since the
NB branch of `generative` does not put `means` in its output dict. -/
def getMeans : GenerativeOutputs → Except String (List (List ℚ))
  | .gaussOut means _ => .ok means
  | .nbOut _ _ => .error "KeyError: means"

/-- `generative_outputs["variances"]`: a KeyError for the NB variant. -/
def getVariances : GenerativeOutputs → Except String (List (List ℚ))
  | .gaussOut _ variances => .ok variances
  | .nbOut _ _ => .error "KeyError: variances"

/-- `CPAModule.loss` (`_module.py` lines 301-340).  It first reads
`generative_outputs["means"]` and `generative_outputs["variances"]`, then for
`loss_ae` in `["gauss", "mse"]` computes
`term1 = variances.log().div(2)`, `term2 = (x - means).pow(2).div(variances.mul(2))`
and returns `(term1 + term2).mean()`; any other `loss_ae` hits
`raise Exception` on line 325.  `log` is the real logarithm, kept as a
function parameter of the embedding. -/
def loss (log : ℚ → ℚ) (loss_ae : String) (x : List (List ℚ))
    (gen : GenerativeOutputs) : Except String ℚ :=
  match getMeans gen, getVariances gen with
  | .error e, _ => .error e
  | .ok _, .error e => .error e
  | .ok means, .ok variances =>
    if loss_ae ∈ (["gauss", "mse"] : List String) then
      let term1 := matMap (fun v => log v / 2) variances
      let term2 := matZipWith (fun a b => a / b)
        (matMap (fun d => d ^ 2) (matZipWith (· - ·) x means))
        (matMap (fun v => v * 2) variances)
      .ok (tmean (matZipWith (· + ·) term1 term2))
    else
      .error "Invalid Loss function for CPA"

/-- The reconstruction loss exactly as the specification words it:
`0.5*log(variance) + (x-mean)^2/(2*variance)`, averaged over all
batch times gene elements. -/
def gaussNLLSpec (log : ℚ → ℚ) (x means variances : List (List ℚ)) : ℚ :=
  tmean (matZipWith3
    (fun xe me ve => 0.5 * log ve + (xe - me) ^ 2 / (2 * ve)) x means variances)

/-- The latent combination of `CPAModule.inference` (`_module.py` lines
236-243).  For each covariate the embedding table is applied to the batch of
covariate indices, giving a `batch_size x n_latent` block; the blocks are
concatenated along dimension 0 (`torch.cat(latent_covariates, 0)`) and summed
over dimension 0 (`.sum(0)`), and the resulting single vector is broadcast
into `latent_basal + latent_covariates + latent_treatment`.  The encoder and
the drug network are learned maps, so their outputs `latentBasal` and
`latentTreatment` are inputs here. -/
def inference (nLatent : Nat) (latentBasal : List (List ℚ)) (covars : List String)
    (covarsEmbedding : String → Nat → List ℚ) (covarsDict : String → List Nat)
    (latentTreatment : List (List ℚ)) : List (List ℚ) :=
  let latentCovariatesList :=
    covars.map (fun covar => (covarsDict covar).map (covarsEmbedding covar))
  let latentCovariates := sumRows nLatent latentCovariatesList.flatten
  List.zipWith (fun b t => vecAdd (vecAdd b latentCovariates) t)
    latentBasal latentTreatment

/-- The latent decomposition as the specification states it: each cell
combines its own basal code, the sum of its own covariate embeddings, and
its own treatment embedding. -/
def latentAdditiveSpec (nLatent : Nat) (latentBasal : List (List ℚ)) (covars : List String)
    (covarsEmbedding : String → Nat → List ℚ) (covarsDict : String → List Nat)
    (latentTreatment : List (List ℚ)) : List (List ℚ) :=
  (List.range latentBasal.length).map (fun i =>
    vecAdd (vecAdd (latentBasal.getD i [])
        (sumRows nLatent
          (covars.map (fun covar => covarsEmbedding covar ((covarsDict covar).getD i 0)))))
      (latentTreatment.getD i []))

/-- Decoder family selected by `CPAModule.__init__`. -/
inductive DecoderKind where
  | gaussDecoder
  | nbDecoder
deriving DecidableEq

/-- The part of the module state fixed by `CPAModule.__init__` that the
claims depend on. -/
structure ModuleCfg where
  variationalEnc : Bool
  hasLibraryEncoder : Bool
  decoder : DecoderKind

/-- Constructor dispatch of `CPAModule.__init__` (`_module.py` lines
87-146): the encoder always builds, a library-size encoder is added iff
`loss_ae == 'nb'`, and the decoder branch raises
`Exception('Invalid Loss function for Autoencoder')` for any `loss_ae`
outside `["gauss", "mse", "nb"]`. -/
def init (loss_ae : String) (variational : Bool) : Except String ModuleCfg :=
  let hasLib := loss_ae = "nb"
  if loss_ae ∈ (["gauss", "mse"] : List String) then
    .ok ⟨variational, hasLib, .gaussDecoder⟩
  else if loss_ae = "nb" then
    .ok ⟨variational, hasLib, .nbDecoder⟩
  else
    .error "Invalid Loss function for Autoencoder"

/-- Python dict lookup for a dict represented as its list of assignments in
program order: the last assignment to a key wins. -/
def dget (l : List (String × ℚ)) (k : String) : Option ℚ :=
  l.foldl (fun acc e => if e.1 = k then some e.2 else acc) none

/-- Total version of `dget`; the default is never reached for keys the code
has assigned. -/
def dgetD (l : List (String × ℚ)) (k : String) : ℚ := (dget l k).getD 0

/-- `CPAModule.adversarial_loss` (`_module.py` lines 342-387), built
assignment by assignment in source order; `advResults1` through
`advResults5` are the intermediate dict states.  The per-head
cross-entropies (`advCovar`, `advDrugs`) and gradient penalties
(`penCovar`, `penDrugs`) depend on the learned classifier heads and the
autodiff graph, so they enter as parameters; the dict keys, the order of
assignments, and the two aggregate sums are translated from the source.
State after the loop `adv_results[f'adv_{covar}'] = ...` (lines 356-360). -/
def advResults1 (covars : List String) (advCovar : String → ℚ) : List (String × ℚ) :=
  covars.map (fun covar => ("adv_" ++ covar, advCovar covar))

/-- State after `adv_results['adv_drugs'] = ...` (line 363). -/
def advResults2 (covars : List String) (advCovar : String → ℚ) (advDrugs : ℚ) :
    List (String × ℚ) :=
  advResults1 covars advCovar ++ [("adv_drugs", advDrugs)]

/-- The value assigned to `adv_results['adv_loss']` (lines 364-365): the
`adv_drugs` entry plus the sum of the `adv_<covariate>` entries of the
current dict. -/
def advLossVal (covars : List String) (advCovar : String → ℚ) (advDrugs : ℚ) : ℚ :=
  dgetD (advResults2 covars advCovar advDrugs) "adv_drugs" +
    (covars.map (fun key => dgetD (advResults2 covars advCovar advDrugs) ("adv_" ++ key))).sum

/-- State after `adv_results['adv_loss'] = ...` (lines 364-365). -/
def advResults3 (covars : List String) (advCovar : String → ℚ) (advDrugs : ℚ) :
    List (String × ℚ) :=
  advResults2 covars advCovar advDrugs ++ [("adv_loss", advLossVal covars advCovar advDrugs)]

/-- State after the loop `adv_results[f'penalty_{covar}'] = ...`
(lines 368-375). -/
def advResults4 (covars : List String) (advCovar : String → ℚ) (advDrugs : ℚ)
    (penCovar : String → ℚ) : List (String × ℚ) :=
  advResults3 covars advCovar advDrugs ++
    covars.map (fun covar => ("penalty_" ++ covar, penCovar covar))

/-- State after `adv_results['penalty_drugs'] = ...` (lines 377-383). -/
def advResults5 (covars : List String) (advCovar : String → ℚ) (advDrugs : ℚ)
    (penCovar : String → ℚ) (penDrugs : ℚ) : List (String × ℚ) :=
  advResults4 covars advCovar advDrugs penCovar ++ [("penalty_drugs", penDrugs)]

/-- The value assigned to `adv_results['penalty_adv']` (lines 384-385). -/
def penaltyAdvVal (covars : List String) (advCovar : String → ℚ) (advDrugs : ℚ)
    (penCovar : String → ℚ) (penDrugs : ℚ) : ℚ :=
  dgetD (advResults5 covars advCovar advDrugs penCovar penDrugs) "penalty_drugs" +
    (covars.map (fun covar =>
      dgetD (advResults5 covars advCovar advDrugs penCovar penDrugs) ("penalty_" ++ covar))).sum

/-- The dict returned by `CPAModule.adversarial_loss` (line 387). -/
def advResults (covars : List String) (advCovar : String → ℚ) (advDrugs : ℚ)
    (penCovar : String → ℚ) (penDrugs : ℚ) : List (String × ℚ) :=
  advResults5 covars advCovar advDrugs penCovar penDrugs ++
    [("penalty_adv", penaltyAdvVal covars advCovar advDrugs penCovar penDrugs)]

/-- `CPAModule.disentanglement` (`_module.py` lines 408-463) as the pair of
scores it returns.  Each covariate appears with the size of its vocabulary
(`len(unique_covars)`); heads are only fitted for covariates with more than
one category.  A fitted head contributes its cross-validated mean balanced
accuracy, which depends on sklearn training, so the per-head values enter as
parameters (`pertBasalScore`, `covarBasalScore` for the basal latent;
`pertScore`, `covarScore` for the combined latent); the `+=` accumulation
over heads is translated from the source. -/
def disentanglement (covars : List (String × Nat)) (pertBasalScore : ℚ)
    (covarBasalScore : String → ℚ) (pertScore : ℚ) (covarScore : String → ℚ) :
    ℚ × ℚ :=
  ((covars.filter (fun c => 1 < c.2)).foldl
      (fun acc c => acc + covarBasalScore c.1) pertBasalScore,
   (covars.filter (fun c => 1 < c.2)).foldl
      (fun acc c => acc + covarScore c.1) pertScore)

/-- The `cv` fold-count arguments of the four `cross_val_score` call sites of
`CPAModule.disentanglement`, labelled and in source order: the basal-latent
drug fit (line 421, `min(5, distinct drugs)`), the basal-latent covariate
fits (line 435), the combined-latent drug fit (line 446, the literal `5`),
and the combined-latent covariate fits (line 460).  `batchDistinct` gives
`len(np.unique(...))` of a covariate in the batch and `drugDistinct` that of
the drug names. -/
def disentanglementFolds (covars : List (String × Nat))
    (batchDistinct : String → Nat) (drugDistinct : Nat) : List (String × Nat) :=
  [("pert_basal", min 5 drugDistinct)]
    ++ (covars.filter (fun c => 1 < c.2)).map
        (fun c => ("basal_" ++ c.1, min 5 (batchDistinct c.1)))
    ++ [("pert", 5)]
    ++ (covars.filter (fun c => 1 < c.2)).map
        (fun c => ("combined_" ++ c.1, min 5 (batchDistinct c.1)))

end CPAModule

namespace CPA

/-- `adata.var_names.isin(genes).astype(int)` (`_model.py` lines 304-309):
the 0/1 membership mask of the gene list over the variable names. -/
def maskHVG (varNames : List String) (degGenes : List String) : List Nat :=
  varNames.map (fun g => if g ∈ degGenes then 1 else 0)

/-- The `cov_cond_map` lookup table of `CPA.setup_anndata` (`_model.py`
lines 300-315): for a covariate-condition category present in the
differential-expression table, the full mask of its genes; otherwise the
all-ones mask. -/
def covCondMap (varNames : List String) (degTable : List (String × List String))
    (covCond : String) : List Nat :=
  match degTable.find? (fun e => e.1 = covCond) with
  | some e => maskHVG varNames e.2
  | none => List.replicate varNames.length 1

/-- The `cov_cond_map_r2` lookup table (`_model.py` lines 307-311): like
`covCondMap` but restricted to the top `n_deg_r2` genes of each entry. -/
def covCondMapR2 (varNames : List String) (degTable : List (String × List String))
    (nDegR2 : Nat) (covCond : String) : List Nat :=
  match degTable.find? (fun e => e.1 = covCond) with
  | some e => maskHVG varNames (e.2.take nDegR2)
  | none => List.replicate varNames.length 1

/-- The `mask` array stacked per cell (`_model.py` lines 317-321), stored as
`adata.obsm["deg_mask"]`. -/
def degMask (varNames : List String) (degTable : List (String × List String))
    (cellCats : List String) : List (List Nat) :=
  cellCats.map (covCondMap varNames degTable)

/-- The `mask_r2` array stacked per cell (`_model.py` lines 322-326), stored
as `adata.obsm["deg_mask_r2"]`.  The source indexes `cov_cond_map` here, not
`cov_cond_map_r2`, so `nDegR2` goes unused. -/
def degMaskR2 (varNames : List String) (degTable : List (String × List String))
    (nDegR2 : Nat) (cellCats : List String) : List (List Nat) :=
  cellCats.map (covCondMap varNames degTable)

end CPA

/-- Modelled from the spec: the dose-response scalers of the drug network
live in `cpa/_utils.py`, which is not under `src/`.  Spec section 4.1 names
the configurable families: linear, sigmoid, log-sigmoid, or a small
feed-forward network (`_model.py` docstring: `sigm`, `logsigm` or `mlp`;
`_module.py` default `linear`). -/
inductive DoserType where
  | linear
  | sigm
  | logsigm
  | mlp
deriving DecidableEq

/-- Modelled from the spec: the dose-response function of `DrugNetwork`
(`cpa/_utils.py`, not under `src/`), per spec section 4.1: it "transforms the
raw dosage into a scalar ... multiplier", with the stated edge-case contract
that a dosage of exactly 0 yields zero contribution regardless of the
family.  The sigmoid families are shifted by their value at dosage 0 and the
feed-forward family subtracts its dosage-0 output, so each family meets that
contract; `sigmoid`, `log1p` and the network `mlpFun` stay abstract (the
latter is learned), with `beta`/`bias` the learned scaler parameters. -/
def doseResponse (dt : DoserType) (sigmoid log1p mlpFun : ℚ → ℚ)
    (beta bias : ℚ) (dose : ℚ) : ℚ :=
  match dt with
  | .linear => dose
  | .sigm => sigmoid (dose * beta + bias) - sigmoid bias
  | .logsigm => sigmoid (log1p dose * beta + bias) - sigmoid bias
  | .mlp => mlpFun dose - mlpFun 0

/-- Modelled from the spec: one combination slot of `DrugNetwork.forward`
(spec section 4.1): the embedding of the perturbation index scaled by the
dose response of its dosage. -/
def slotContribution (dt : DoserType) (sigmoid log1p mlpFun : ℚ → ℚ)
    (beta bias : ℚ) (embedding : Nat → List ℚ) (drug : Nat) (dose : ℚ) : List ℚ :=
  (embedding drug).map (fun e => doseResponse dt sigmoid log1p mlpFun beta bias dose * e)

/-- Modelled from the spec: `DrugNetwork.forward` on one cell (spec section
4.1): the per-slot embeddings scaled by their dose response and summed
across the combination slots. -/
def drugNetwork (dt : DoserType) (sigmoid log1p mlpFun : ℚ → ℚ)
    (beta bias : ℚ) (embedding : Nat → List ℚ) (nLatent : Nat)
    (drugs : List Nat) (doses : List ℚ) : List ℚ :=
  (drugs.zip doses).foldl
    (fun acc p => vecAdd acc
      (slotContribution dt sigmoid log1p mlpFun beta bias embedding p.1 p.2))
    (List.replicate nLatent 0)

namespace CPA

/-- `d.split("+")` on the character list of a condition string: split at
every plus character (structural recursion, so it evaluates in the kernel). -/
def splitTokens (cs : List Char) (cur : List Char) : List (List Char) :=
  match cs with
  | [] => [cur.reverse]
  | c :: rest =>
    if c = '+' then cur.reverse :: splitTokens rest [] else splitTokens rest (c :: cur)

/-- `d.split("+")` of `CPA.setup_anndata` (`_model.py` line 211). -/
def splitPlus (s : String) : List String :=
  (splitTokens s.data []).map (fun cs => String.mk cs)

/-- The unique perturbation names extracted by `CPA.setup_anndata`
(`_model.py` lines 208-211): every `+`-separated token of the observed
perturbation strings except the control group, as a set (here: deduplicated
list). -/
def pertsNamesUnique (perturbations : List String) (controlGroup : String) : List String :=
  ((perturbations.flatMap (fun d => splitPlus d)).filter (fun i => i ≠ controlGroup)).dedup

/-- `sorted(list(perts_names_unique))` (`_model.py` lines 212-214). -/
def sortedPerts (perturbations : List String) (controlGroup : String) : List String :=
  List.insertionSort (fun a b => a ≤ b) (pertsNamesUnique perturbations controlGroup)

/-- `perts_names_unique = ["<PAD>", control_group] + sorted(...)`
(`_model.py` lines 212-214). -/
def pertVocab (perturbations : List String) (controlGroup : String) : List String :=
  "<PAD>" :: controlGroup :: sortedPerts perturbations controlGroup

/-- `CPA_REGISTRY_KEYS.PADDING_IDX = 0` (`_model.py` line 215). -/
def PADDING_IDX : Nat := 0

/-- The Python dict comprehension `{pert: i for i, pert in enumerate(l)}`
(`_model.py` line 217): iterate over the enumerated list, a later assignment
to the same key overwriting an earlier one. -/
def dictOfList (l : List String) (p : String) : Option Nat :=
  l.enum.foldl (fun acc e => if e.2 = p then some e.1 else acc) none

/-- The freshly built `pert_encoder` of `CPA.setup_anndata` (`_model.py`
lines 207-217). -/
def pert_encoder (perturbations : List String) (controlGroup : String) :
    String → Option Nat :=
  dictOfList (pertVocab perturbations controlGroup)

end CPA

theorem str_append_cancel {s t u : String} (h : s ++ t = s ++ u) : t = u := by
  have hd := congrArg String.data h
  rw [String.data_append, String.data_append] at hd
  have h2 := List.append_cancel_left hd
  cases t; cases u
  exact congrArg String.mk (by simpa using h2)

theorem penalty_prefix_ne_adv_prefix (c d : String) :
    ("penalty_" ++ c) ≠ ("adv_" ++ d) := by
  intro h
  have h1 : ("penalty_" ++ c).data.head? = some 'p' := rfl
  have h2 : ("adv_" ++ d).data.head? = some 'a' := rfl
  rw [h] at h1
  exact absurd (h1.symm.trans h2) (by decide)

theorem foldl_dget_no_match (l : List (String × ℚ)) (k : String)
    (acc : Option ℚ) (h : ∀ e ∈ l, e.1 ≠ k) :
    l.foldl (fun acc e => if e.1 = k then some e.2 else acc) acc = acc := by
  induction l generalizing acc with
  | nil => rfl
  | cons e t ih =>
    simp only [List.foldl_cons]
    rw [if_neg (h e (by simp))]
    exact ih acc (fun x hx => h x (List.mem_cons_of_mem e hx))

theorem foldl_dget_acc_irrel (l : List (String × ℚ)) (k : String)
    (acc1 acc2 : Option ℚ) (h : ∃ e ∈ l, e.1 = k) :
    l.foldl (fun acc e => if e.1 = k then some e.2 else acc) acc1 =
      l.foldl (fun acc e => if e.1 = k then some e.2 else acc) acc2 := by
  induction l generalizing acc1 acc2 with
  | nil => exact absurd h (by simp)
  | cons e t ih =>
    simp only [List.foldl_cons]
    by_cases he : e.1 = k
    · rw [if_pos he, if_pos he]
    · rw [if_neg he, if_neg he]
      rcases h with ⟨e', he', hk⟩
      rcases List.mem_cons.mp he' with h' | h'
      · exact absurd (h' ▸ hk) he
      · exact ih acc1 acc2 ⟨e', h', hk⟩

theorem dget_append_none (l1 l2 : List (String × ℚ)) (k : String)
    (h : ∀ e ∈ l2, e.1 ≠ k) :
    CPAModule.dget (l1 ++ l2) k = CPAModule.dget l1 k := by
  unfold CPAModule.dget
  rw [List.foldl_append]
  exact foldl_dget_no_match l2 k _ h

theorem dget_append_of_mem (l1 l2 : List (String × ℚ)) (k : String)
    (h : ∃ e ∈ l2, e.1 = k) :
    CPAModule.dget (l1 ++ l2) k = CPAModule.dget l2 k := by
  unfold CPAModule.dget
  rw [List.foldl_append]
  exact foldl_dget_acc_irrel l2 k _ none h

theorem dget_snoc_same (l : List (String × ℚ)) (k : String) (v : ℚ) :
    CPAModule.dget (l ++ [(k, v)]) k = some v := by
  unfold CPAModule.dget
  rw [List.foldl_append]
  simp

theorem dget_snoc_ne (l : List (String × ℚ)) (k k' : String) (v : ℚ)
    (h : k ≠ k') : CPAModule.dget (l ++ [(k, v)]) k' = CPAModule.dget l k' :=
  dget_append_none l [(k, v)] k' (by simpa using h)

theorem dget_map_prefix (pre : String) (g : String → ℚ) (covars : List String)
    (c0 : String) (h : c0 ∈ covars) :
    CPAModule.dget (covars.map (fun c => (pre ++ c, g c))) (pre ++ c0) =
      some (g c0) := by
  induction covars with
  | nil => exact absurd h (by simp)
  | cons a t ih =>
    by_cases hc : c0 ∈ t
    · rw [show ((a :: t).map (fun c => (pre ++ c, g c))) =
          [(pre ++ a, g a)] ++ t.map (fun c => (pre ++ c, g c)) from rfl]
      rw [dget_append_of_mem _ _ _ ⟨(pre ++ c0, g c0), List.mem_map.mpr ⟨c0, hc, rfl⟩, rfl⟩]
      exact ih hc
    · have ha : a = c0 := by
        rcases List.mem_cons.mp h with h' | h'
        · exact h'.symm
        · exact absurd h' hc
      subst ha
      unfold CPAModule.dget
      simp only [List.map_cons, List.foldl_cons, if_pos rfl]
      exact foldl_dget_no_match _ _ _ (by
        intro e he
        rcases List.mem_map.mp he with ⟨c, hcmem, rfl⟩
        intro hk
        exact hc (str_append_cancel hk ▸ hcmem))

/-- Claim C2: for a module built with the Gaussian/MSE likelihood,
`CPAModule.loss` returns the negative Gaussian log-likelihood
`0.5*log(variance) + (x-mean)^2/(2*variance)` per element, averaged over all
batch times gene elements, with means/variances the decoder outputs and `x`
the input expression. -/
theorem loss_gauss_matches_spec (log : ℚ → ℚ) (loss_ae : String)
    (x means variances : List (List ℚ))
    (h : loss_ae = "gauss" ∨ loss_ae = "mse") :
    CPAModule.loss log loss_ae x (.gaussOut means variances) =
      .ok (CPAModule.gaussNLLSpec log x means variances) := by
  have hmem : loss_ae ∈ (["gauss", "mse"] : List String) := by
    rcases h with h | h <;> simp [h]
  have row : ∀ (xr mr vr : List ℚ),
      List.zipWith (· + ·)
        (List.map (fun v => log v / 2) vr)
        (List.zipWith (fun a b => a / b)
          (List.map (fun d => d ^ 2) (List.zipWith (· - ·) xr mr))
          (List.map (fun v => v * 2) vr)) =
      zipWith3 (fun xe me ve => 0.5 * log ve + (xe - me) ^ 2 / (2 * ve)) xr mr vr := by
    intro xr
    induction xr with
    | nil => intro mr vr; cases mr <;> cases vr <;> rfl
    | cons xe xt ihr =>
      intro mr vr
      cases mr with
      | nil => cases vr <;> rfl
      | cons me mt =>
        cases vr with
        | nil => rfl
        | cons ve vt =>
          simp only [List.map_cons, List.zipWith_cons_cons, zipWith3, ihr,
            List.cons.injEq, and_true]
          have h05 : (0.5 : ℚ) = 1 / 2 := by norm_num
          rw [h05]; ring
  have key : ∀ (x means variances : List (List ℚ)),
      matZipWith (· + ·)
        (matMap (fun v => log v / 2) variances)
        (matZipWith (fun a b => a / b)
          (matMap (fun d => d ^ 2) (matZipWith (· - ·) x means))
          (matMap (fun v => v * 2) variances)) =
      matZipWith3
        (fun xe me ve => 0.5 * log ve + (xe - me) ^ 2 / (2 * ve)) x means variances := by
    intro x
    induction x with
    | nil => intro means variances; cases means <;> cases variances <;> rfl
    | cons xr xs ih =>
      intro means variances
      cases means with
      | nil => cases variances <;> rfl
      | cons mr ms =>
        cases variances with
        | nil => rfl
        | cons vr vs =>
          show (List.zipWith (· + ·)
              (List.map (fun v => log v / 2) vr)
              (List.zipWith (fun a b => a / b)
                (List.map (fun d => d ^ 2) (List.zipWith (· - ·) xr mr))
                (List.map (fun v => v * 2) vr))) ::
              matZipWith (· + ·)
                (matMap (fun v => log v / 2) vs)
                (matZipWith (fun a b => a / b)
                  (matMap (fun d => d ^ 2) (matZipWith (· - ·) xs ms))
                  (matMap (fun v => v * 2) vs)) = _
          rw [row xr mr vr, ih ms vs]
          rfl
  show (if loss_ae ∈ (["gauss", "mse"] : List String) then _ else _) = _
  rw [if_pos hmem]
  simp only [CPAModule.gaussNLLSpec]
  rw [key]

/-- Witness for claim C2 at a concrete input. -/
theorem loss_gauss_matches_spec_witness :
    ("gauss" = "gauss" ∨ "gauss" = "mse") ∧
      CPAModule.loss (fun q => q) "gauss" [[2]] (.gaussOut [[1]] [[4]]) =
        .ok (CPAModule.gaussNLLSpec (fun q => q) [[2]] [[1]] [[4]]) :=
  ⟨Or.inl rfl, loss_gauss_matches_spec (fun q => q) "gauss" [[2]] [[1]] [[4]] (Or.inl rfl)⟩

/-- Claim C3 (code bug): for `loss_ae = 'nb'` the module constructs
successfully with the NB decoder, yet `CPAModule.loss` fails instead of
returning the NB negative log-likelihood: it reads the missing
`means`/`variances` keys of the NB generative output (KeyError), and even
when handed Gaussian-style outputs its `else` branch raises
`Invalid Loss function for CPA`. -/
theorem loss_nb_fails :
    CPAModule.init "nb" false = .ok ⟨false, true, .nbDecoder⟩ ∧
      CPAModule.loss (fun q => q) "nb" [[1]] (.nbOut [[1]] [1]) =
        .error "KeyError: means" ∧
      CPAModule.loss (fun q => q) "nb" [[1]] (.gaussOut [[1]] [[1]]) =
        .error "Invalid Loss function for CPA" := by
  refine ⟨?_, rfl, rfl⟩
  simp [CPAModule.init]

/-- Claim C6: any `loss_ae` outside `{"gauss", "mse", "nb"}` makes
`CPAModule.__init__` raise immediately, never returning a configuration. -/
theorem init_invalid_loss_raises (loss_ae : String)
    (h : loss_ae ∉ (["gauss", "mse", "nb"] : List String)) :
    ∀ variational, CPAModule.init loss_ae variational =
      .error "Invalid Loss function for Autoencoder" := by
  intro variational
  have h1 : loss_ae ∉ (["gauss", "mse"] : List String) := by
    intro hc
    apply h
    simp only [List.mem_cons, List.not_mem_nil, or_false] at hc ⊢
    tauto
  have h2 : loss_ae ≠ "nb" := by
    intro hc; exact h (by simp [hc])
  simp [CPAModule.init, h1, h2]

/-- Witness for claim C6 at the concrete string `"poisson"`. -/
theorem init_invalid_loss_raises_witness :
    "poisson" ∉ (["gauss", "mse", "nb"] : List String) ∧
      CPAModule.init "poisson" true = .error "Invalid Loss function for Autoencoder" :=
  ⟨by decide, init_invalid_loss_raises "poisson" (by decide) true⟩

/-- Claim C1 (code bug): `CPAModule.inference` does not satisfy the per-cell
additive decomposition.  With 2 cells, 1 latent dimension, one covariate
whose two categories embed to `[1]` and `[2]`, zero basal codes and zero
treatment, the code broadcasts the batch-wide embedding sum `[3]` to both
cells, while the specified decomposition gives `[1]` and `[2]`. -/
theorem inference_latent_not_per_cell :
    CPAModule.inference 1 [[0], [0]] ["cell_type"] (fun _ i => [(i : ℚ) + 1])
        (fun _ => [0, 1]) [[0], [0]] = [[3], [3]] ∧
      CPAModule.latentAdditiveSpec 1 [[0], [0]] ["cell_type"] (fun _ i => [(i : ℚ) + 1])
        (fun _ => [0, 1]) [[0], [0]] = [[1], [2]] ∧
      ([[3], [3]] : List (List ℚ)) ≠ [[1], [2]] := by
  refine ⟨?_, ?_, by simp⟩
  · simp [CPAModule.inference, sumRows, vecAdd]
    norm_num
  · simp [CPAModule.latentAdditiveSpec, sumRows, vecAdd, List.range_succ]
    norm_num


/-- Claim C9: the stored `deg_mask_r2` array equals `deg_mask` elementwise
for every cell, because both are computed from the `cov_cond_map` table;
the separately built `cov_cond_map_r2` table (which genuinely differs, as
the second conjunct shows) is never used. -/
theorem deg_mask_r2_equals_deg_mask :
    (∀ (varNames : List String) (degTable : List (String × List String))
        (nDegR2 : Nat) (cellCats : List String),
      CPA.degMaskR2 varNames degTable nDegR2 cellCats =
        CPA.degMask varNames degTable cellCats) ∧
      CPA.covCondMapR2 ["g1", "g2"] [("c", ["g1", "g2"])] 1 "c" ≠
        CPA.covCondMap ["g1", "g2"] [("c", ["g1", "g2"])] "c" :=
  ⟨fun _ _ _ _ => rfl, by decide⟩

/-- Claim C4: in the dict returned by `CPAModule.adversarial_loss`, the
`adv_loss` entry equals the sum of the `adv_drugs` entry and every
`adv_<covariate>` entry, and the `penalty_adv` entry equals the sum of the
`penalty_drugs` entry and every `penalty_<covariate>` entry.  The
hypotheses rule out covariate names that would collide with the reserved
keys (`drugs`, `loss`, `adv`). -/
theorem adversarial_loss_totals (covars : List String) (advCovar : String → ℚ)
    (advDrugs : ℚ) (penCovar : String → ℚ) (penDrugs : ℚ)
    (hd : "drugs" ∉ covars) (hl : "loss" ∉ covars) (ha : "adv" ∉ covars) :
    CPAModule.dget (CPAModule.advResults covars advCovar advDrugs penCovar penDrugs)
        "adv_loss" =
      some (CPAModule.dgetD
          (CPAModule.advResults covars advCovar advDrugs penCovar penDrugs) "adv_drugs" +
        (covars.map (fun c => CPAModule.dgetD
          (CPAModule.advResults covars advCovar advDrugs penCovar penDrugs)
          ("adv_" ++ c))).sum) ∧
    CPAModule.dget (CPAModule.advResults covars advCovar advDrugs penCovar penDrugs)
        "penalty_adv" =
      some (CPAModule.dgetD
          (CPAModule.advResults covars advCovar advDrugs penCovar penDrugs)
          "penalty_drugs" +
        (covars.map (fun c => CPAModule.dgetD
          (CPAModule.advResults covars advCovar advDrugs penCovar penDrugs)
          ("penalty_" ++ c))).sum) := by
  -- covariate names are distinct from the reserved tokens
  have hcd : ∀ c ∈ covars, c ≠ "drugs" := fun c hc he => hd (he ▸ hc)
  have hcl : ∀ c ∈ covars, c ≠ "loss" := fun c hc he => hl (he ▸ hc)
  have hca : ∀ c ∈ covars, c ≠ "adv" := fun c hc he => ha (he ▸ hc)
  -- facts about the intermediate dict d2
  have L1 : CPAModule.dget (CPAModule.advResults2 covars advCovar advDrugs)
      "adv_drugs" = some advDrugs := dget_snoc_same _ _ _
  have L2 : ∀ c ∈ covars,
      CPAModule.dget (CPAModule.advResults2 covars advCovar advDrugs)
        ("adv_" ++ c) = some (advCovar c) := by
    intro c hc
    unfold CPAModule.advResults2
    rw [dget_snoc_ne (CPAModule.advResults1 covars advCovar) "adv_drugs"
      ("adv_" ++ c) advDrugs
      (show ("adv_drugs" : String) ≠ "adv_" ++ c from
        fun hh => hcd c hc (@str_append_cancel "adv_" "drugs" c hh).symm)]
    exact dget_map_prefix "adv_" advCovar covars c hc
  have eqX : CPAModule.advLossVal covars advCovar advDrugs =
      advDrugs + (covars.map advCovar).sum := by
    unfold CPAModule.advLossVal CPAModule.dgetD
    rw [L1]
    congr 1
    congr 1
    exact List.map_congr_left (fun c hc => by rw [L2 c hc]; rfl)
  -- facts about the intermediate dict d5
  have M1 : CPAModule.dget
      (CPAModule.advResults5 covars advCovar advDrugs penCovar penDrugs)
      "penalty_drugs" = some penDrugs := dget_snoc_same _ _ _
  have M2 : ∀ c ∈ covars,
      CPAModule.dget (CPAModule.advResults5 covars advCovar advDrugs penCovar penDrugs)
        ("penalty_" ++ c) = some (penCovar c) := by
    intro c hc
    unfold CPAModule.advResults5
    rw [dget_snoc_ne (CPAModule.advResults4 covars advCovar advDrugs penCovar)
      "penalty_drugs" ("penalty_" ++ c) penDrugs
      (show ("penalty_drugs" : String) ≠ "penalty_" ++ c from
        fun hh => hcd c hc (@str_append_cancel "penalty_" "drugs" c hh).symm)]
    unfold CPAModule.advResults4
    rw [dget_append_of_mem _ _ _
      ⟨("penalty_" ++ c, penCovar c), List.mem_map.mpr ⟨c, hc, rfl⟩, rfl⟩]
    exact dget_map_prefix "penalty_" penCovar covars c hc
  have eqY : CPAModule.penaltyAdvVal covars advCovar advDrugs penCovar penDrugs =
      penDrugs + (covars.map penCovar).sum := by
    unfold CPAModule.penaltyAdvVal CPAModule.dgetD
    rw [M1]
    congr 1
    congr 1
    exact List.map_congr_left (fun c hc => by rw [M2 c hc]; rfl)
  -- facts about the returned dict
  have R1 : CPAModule.dget
      (CPAModule.advResults covars advCovar advDrugs penCovar penDrugs)
      "adv_drugs" = some advDrugs := by
    unfold CPAModule.advResults
    rw [dget_snoc_ne _ "penalty_adv" "adv_drugs" _ (by decide)]
    unfold CPAModule.advResults5
    rw [dget_snoc_ne _ "penalty_drugs" "adv_drugs" _ (by decide)]
    unfold CPAModule.advResults4
    rw [dget_append_none _ _ "adv_drugs" (by
      intro e he
      rcases List.mem_map.mp he with ⟨c, _, rfl⟩
      exact show ("penalty_" ++ c : String) ≠ "adv_drugs" from
        penalty_prefix_ne_adv_prefix c "drugs")]
    unfold CPAModule.advResults3
    rw [dget_snoc_ne _ "adv_loss" "adv_drugs" _ (by decide)]
    exact L1
  have R2 : ∀ c ∈ covars, CPAModule.dget
      (CPAModule.advResults covars advCovar advDrugs penCovar penDrugs)
      ("adv_" ++ c) = some (advCovar c) := by
    intro c hc
    unfold CPAModule.advResults
    rw [dget_snoc_ne _ "penalty_adv" ("adv_" ++ c) _
      (show ("penalty_adv" : String) ≠ "adv_" ++ c from
        penalty_prefix_ne_adv_prefix "adv" c)]
    unfold CPAModule.advResults5
    rw [dget_snoc_ne _ "penalty_drugs" ("adv_" ++ c) _
      (show ("penalty_drugs" : String) ≠ "adv_" ++ c from
        penalty_prefix_ne_adv_prefix "drugs" c)]
    unfold CPAModule.advResults4
    rw [dget_append_none _ _ ("adv_" ++ c) (by
      intro e he
      rcases List.mem_map.mp he with ⟨c2, _, rfl⟩
      exact penalty_prefix_ne_adv_prefix c2 c)]
    unfold CPAModule.advResults3
    rw [dget_snoc_ne _ "adv_loss" ("adv_" ++ c) _
      (show ("adv_loss" : String) ≠ "adv_" ++ c from
        fun hh => hcl c hc (@str_append_cancel "adv_" "loss" c hh).symm)]
    exact L2 c hc
  have R3 : CPAModule.dget
      (CPAModule.advResults covars advCovar advDrugs penCovar penDrugs)
      "adv_loss" = some (CPAModule.advLossVal covars advCovar advDrugs) := by
    unfold CPAModule.advResults
    rw [dget_snoc_ne _ "penalty_adv" "adv_loss" _ (by decide)]
    unfold CPAModule.advResults5
    rw [dget_snoc_ne _ "penalty_drugs" "adv_loss" _ (by decide)]
    unfold CPAModule.advResults4
    rw [dget_append_none _ _ "adv_loss" (by
      intro e he
      rcases List.mem_map.mp he with ⟨c2, _, rfl⟩
      exact show ("penalty_" ++ c2 : String) ≠ "adv_loss" from
        penalty_prefix_ne_adv_prefix c2 "loss")]
    exact dget_snoc_same _ _ _
  have R4 : CPAModule.dget
      (CPAModule.advResults covars advCovar advDrugs penCovar penDrugs)
      "penalty_drugs" = some penDrugs := by
    unfold CPAModule.advResults
    rw [dget_snoc_ne _ "penalty_adv" "penalty_drugs" _ (by decide)]
    exact M1
  have R5 : ∀ c ∈ covars, CPAModule.dget
      (CPAModule.advResults covars advCovar advDrugs penCovar penDrugs)
      ("penalty_" ++ c) = some (penCovar c) := by
    intro c hc
    unfold CPAModule.advResults
    rw [dget_snoc_ne _ "penalty_adv" ("penalty_" ++ c) _
      (show ("penalty_adv" : String) ≠ "penalty_" ++ c from
        fun hh => hca c hc (@str_append_cancel "penalty_" "adv" c hh).symm)]
    exact M2 c hc
  have R6 : CPAModule.dget
      (CPAModule.advResults covars advCovar advDrugs penCovar penDrugs)
      "penalty_adv" =
      some (CPAModule.penaltyAdvVal covars advCovar advDrugs penCovar penDrugs) :=
    dget_snoc_same _ _ _
  constructor
  · rw [R3, eqX]
    have hmap : List.map (fun c =>
        (CPAModule.dget (CPAModule.advResults covars advCovar advDrugs penCovar penDrugs)
          ("adv_" ++ c)).getD 0) covars = List.map advCovar covars :=
      List.map_congr_left (fun c hc => by rw [R2 c hc]; rfl)
    unfold CPAModule.dgetD
    rw [R1, hmap]
    rfl
  · rw [R6, eqY]
    have hmap : List.map (fun c =>
        (CPAModule.dget (CPAModule.advResults covars advCovar advDrugs penCovar penDrugs)
          ("penalty_" ++ c)).getD 0) covars = List.map penCovar covars :=
      List.map_congr_left (fun c hc => by rw [R5 c hc]; rfl)
    unfold CPAModule.dgetD
    rw [R4, hmap]
    rfl

/-- Witness for claim C4 with one covariate named `cell_type`. -/
theorem adversarial_loss_totals_witness :
    ("drugs" ∉ (["cell_type"] : List String)) ∧
      CPAModule.dget
          (CPAModule.advResults ["cell_type"] (fun _ => 1/2) 2 (fun _ => 3) 4)
          "adv_loss" =
        some (CPAModule.dgetD
            (CPAModule.advResults ["cell_type"] (fun _ => 1/2) 2 (fun _ => 3) 4)
            "adv_drugs" +
          ((["cell_type"] : List String).map (fun c => CPAModule.dgetD
            (CPAModule.advResults ["cell_type"] (fun _ => 1/2) 2 (fun _ => 3) 4)
            ("adv_" ++ c))).sum) :=
  ⟨by decide,
    (adversarial_loss_totals ["cell_type"] (fun _ => 1/2) 2 (fun _ => 3) 4
      (by decide) (by decide) (by decide)).1⟩

theorem foldl_add_map {α : Type} (l : List α) (g : α → ℚ) (a : ℚ) :
    l.foldl (fun x c => x + g c) a = a + (l.map g).sum := by
  induction l generalizing a with
  | nil => simp
  | cons e t ih =>
    simp only [List.foldl_cons, List.map_cons, List.sum_cons, ih]
    ring

/-- Claim C7 counterexample: with one covariate of 2 categories and every
per-head mean balanced accuracy equal to 1 (a value balanced accuracy can
attain), both returned scores are 2, outside `[0,1]`. -/
theorem disentanglement_score_exceeds_one :
    CPAModule.disentanglement [("cell_type", 2)] 1 (fun _ => 1) 1 (fun _ => 1) =
      (2, 2) ∧ ¬ ((2 : ℚ) ≤ 1) := by
  constructor
  · show (_, _) = _
    norm_num [CPAModule.disentanglement]
  · norm_num

/-- Claim C7 as amended: each score returned by `CPAModule.disentanglement`
is the sum of the drug-head mean balanced accuracy and the mean balanced
accuracies of every covariate head with more than one category; with each
per-head accuracy in `[0,1]`, each score lies in `[0, 1 + k]` where `k` is
the number of multi-category covariates — not in `[0,1]`. -/
theorem disentanglement_scores_bounds (covars : List (String × Nat))
    (pertBasalScore : ℚ) (covarBasalScore : String → ℚ)
    (pertScore : ℚ) (covarScore : String → ℚ)
    (hpb : 0 ≤ pertBasalScore ∧ pertBasalScore ≤ 1)
    (hcb : ∀ s, 0 ≤ covarBasalScore s ∧ covarBasalScore s ≤ 1)
    (hp : 0 ≤ pertScore ∧ pertScore ≤ 1)
    (hc : ∀ s, 0 ≤ covarScore s ∧ covarScore s ≤ 1) :
    (0 ≤ (CPAModule.disentanglement covars pertBasalScore covarBasalScore
        pertScore covarScore).1 ∧
      (CPAModule.disentanglement covars pertBasalScore covarBasalScore
        pertScore covarScore).1 ≤
        1 + ((covars.filter (fun c => 1 < c.2)).length : ℚ)) ∧
    (0 ≤ (CPAModule.disentanglement covars pertBasalScore covarBasalScore
        pertScore covarScore).2 ∧
      (CPAModule.disentanglement covars pertBasalScore covarBasalScore
        pertScore covarScore).2 ≤
        1 + ((covars.filter (fun c => 1 < c.2)).length : ℚ)) := by
  have bound : ∀ (base : ℚ) (g : String → ℚ),
      (0 ≤ base ∧ base ≤ 1) → (∀ s, 0 ≤ g s ∧ g s ≤ 1) →
      0 ≤ (covars.filter (fun c => 1 < c.2)).foldl (fun acc c => acc + g c.1) base ∧
        (covars.filter (fun c => 1 < c.2)).foldl (fun acc c => acc + g c.1) base ≤
          1 + ((covars.filter (fun c => 1 < c.2)).length : ℚ) := by
    intro base g hbase hg
    rw [foldl_add_map]
    have hsum0 : 0 ≤ ((covars.filter (fun c => 1 < c.2)).map (fun c => g c.1)).sum :=
      List.sum_nonneg (by
        intro x hx
        rcases List.mem_map.mp hx with ⟨c, _, rfl⟩
        exact (hg c.1).1)
    have hsum1 : ((covars.filter (fun c => 1 < c.2)).map (fun c => g c.1)).sum ≤
        ((covars.filter (fun c => 1 < c.2)).length : ℚ) := by
      have := List.sum_le_card_nsmul
        ((covars.filter (fun c => 1 < c.2)).map (fun c => g c.1)) 1 (by
          intro x hx
          rcases List.mem_map.mp hx with ⟨c, _, rfl⟩
          exact (hg c.1).2)
      rwa [List.length_map, nsmul_eq_mul, mul_one] at this
    constructor
    · exact add_nonneg hbase.1 hsum0
    · exact add_le_add hbase.2 hsum1
  exact ⟨bound pertBasalScore covarBasalScore hpb hcb,
    bound pertScore covarScore hp hc⟩

/-- Witness for the amended claim C7 at a concrete input. -/
theorem disentanglement_scores_bounds_witness :
    (0 ≤ (1/2 : ℚ) ∧ (1/2 : ℚ) ≤ 1) ∧
      (0 ≤ (CPAModule.disentanglement [("c", 2)] (1/2) (fun _ => 1/2)
          (1/2) (fun _ => 1/2)).1 ∧
        (CPAModule.disentanglement [("c", 2)] (1/2) (fun _ => 1/2)
          (1/2) (fun _ => 1/2)).1 ≤
          1 + ((([("c", 2)] : List (String × Nat)).filter (fun c => 1 < c.2)).length : ℚ)) :=
  ⟨⟨by norm_num, by norm_num⟩,
    (disentanglement_scores_bounds [("c", 2)] (1/2) (fun _ => 1/2) (1/2) (fun _ => 1/2)
      ⟨by norm_num, by norm_num⟩ (fun _ => ⟨by norm_num, by norm_num⟩)
      ⟨by norm_num, by norm_num⟩ (fun _ => ⟨by norm_num, by norm_num⟩)).1⟩

/-- Claim C8 counterexample: with no covariates and 2 distinct drug names in
the batch, the fold counts are `[2, 5]` — the combined-latent drug fit uses
the fixed fold count 5, not `min 5 2 = 2`. -/
theorem disentanglement_folds_fixed_five :
    CPAModule.disentanglementFolds [] (fun _ => 0) 2 =
      [("pert_basal", 2), ("pert", 5)] ∧ (5 : Nat) ≠ min 5 2 := by
  constructor
  · rfl
  · decide

/-- Claim C8 as amended: the basal-latent drug fit and all covariate fits
use `min(5, number of distinct label values)` folds, while the
combined-latent drug fit always uses 5 folds. -/
theorem disentanglement_folds_amended (covars : List (String × Nat))
    (batchDistinct : String → Nat) (drugDistinct : Nat) :
    ("pert_basal", min 5 drugDistinct) ∈
        CPAModule.disentanglementFolds covars batchDistinct drugDistinct ∧
      ("pert", 5) ∈ CPAModule.disentanglementFolds covars batchDistinct drugDistinct ∧
      ∀ c ∈ covars.filter (fun c => 1 < c.2),
        ("basal_" ++ c.1, min 5 (batchDistinct c.1)) ∈
            CPAModule.disentanglementFolds covars batchDistinct drugDistinct ∧
          ("combined_" ++ c.1, min 5 (batchDistinct c.1)) ∈
            CPAModule.disentanglementFolds covars batchDistinct drugDistinct := by
  unfold CPAModule.disentanglementFolds
  refine ⟨by simp, by simp, ?_⟩
  intro c hc
  constructor
  · simp only [List.mem_append]
    exact Or.inl (Or.inl (Or.inr (List.mem_map.mpr ⟨c, hc, rfl⟩)))
  · simp only [List.mem_append]
    exact Or.inr (List.mem_map.mpr ⟨c, hc, rfl⟩)

/-- Witness for the amended claim C8 at a concrete input. -/
theorem disentanglement_folds_amended_witness :
    (("c", 2) ∈ ([("c", 2)] : List (String × Nat)).filter (fun c => 1 < c.2)) ∧
      ("basal_" ++ "c", min 5 3) ∈
        CPAModule.disentanglementFolds [("c", 2)] (fun _ => 3) 2 :=
  ⟨by decide,
    ((disentanglement_folds_amended [("c", 2)] (fun _ => 3) 2).2.2
      ("c", 2) (by decide)).1⟩

theorem vecAdd_zero_zero (n : Nat) :
    vecAdd (List.replicate n 0) (List.replicate n 0) = List.replicate n 0 := by
  induction n with
  | zero => rfl
  | succ m ih =>
    simp only [List.replicate_succ, vecAdd, List.zipWith_cons_cons, add_zero]
    exact congrArg _ ih

theorem map_zero_eq_replicate (l : List ℚ) :
    l.map (fun _ => (0 : ℚ)) = List.replicate l.length 0 := by
  induction l with
  | nil => rfl
  | cons a t ih => simp [ih, List.replicate_succ]

/-- Claim C5 (spec-modelled): a combination slot with dosage exactly 0
contributes the zero vector for every dose-response family, and a
combination whose dosages are all 0 (in particular the all-padding,
all-zero-dosage combination) yields the zero treatment contribution. -/
theorem drug_network_zero_dose (dt : DoserType) (sigmoid log1p mlpFun : ℚ → ℚ)
    (beta bias : ℚ) (embedding : Nat → List ℚ) (hlog : log1p 0 = 0) :
    (∀ (drug : Nat) (dose : ℚ), dose = 0 →
      slotContribution dt sigmoid log1p mlpFun beta bias embedding drug dose =
        List.replicate (embedding drug).length 0) ∧
    (∀ (nLatent : Nat) (drugs : List Nat) (doses : List ℚ),
      (∀ d ∈ doses, d = 0) → (∀ i, (embedding i).length = nLatent) →
      drugNetwork dt sigmoid log1p mlpFun beta bias embedding nLatent drugs doses =
        List.replicate nLatent 0) := by
  have hzero : doseResponse dt sigmoid log1p mlpFun beta bias 0 = 0 := by
    cases dt with
    | linear => rfl
    | sigm =>
      show sigmoid (0 * beta + bias) - sigmoid bias = 0
      rw [zero_mul, zero_add, sub_self]
    | logsigm =>
      show sigmoid (log1p 0 * beta + bias) - sigmoid bias = 0
      rw [hlog, zero_mul, zero_add, sub_self]
    | mlp => exact sub_self _
  have hslot : ∀ (drug : Nat) (dose : ℚ), dose = 0 →
      slotContribution dt sigmoid log1p mlpFun beta bias embedding drug dose =
        List.replicate (embedding drug).length 0 := by
    intro drug dose hdose
    subst hdose
    unfold slotContribution
    simp only [hzero, zero_mul]
    exact map_zero_eq_replicate _
  refine ⟨hslot, ?_⟩
  intro nLatent drugs doses hdoses hemb
  unfold drugNetwork
  have haux : ∀ (pairs : List (Nat × ℚ)), (∀ p ∈ pairs, p.2 = 0) →
      pairs.foldl (fun acc p => vecAdd acc
        (slotContribution dt sigmoid log1p mlpFun beta bias embedding p.1 p.2))
        (List.replicate nLatent 0) = List.replicate nLatent 0 := by
    intro pairs
    induction pairs with
    | nil => intro _; rfl
    | cons p t ih =>
      intro hz
      simp only [List.foldl_cons]
      rw [hslot p.1 p.2 (hz p (List.mem_cons_self p t)), hemb p.1, vecAdd_zero_zero]
      exact ih (fun q hq => hz q (List.mem_cons_of_mem p hq))
  apply haux
  intro p hp
  obtain ⟨a, b⟩ := p
  exact hdoses b (List.of_mem_zip hp).2

/-- Witness for claim C5: the log-sigmoid family with concrete abstract
activations, two all-padding slots at dosage 0. -/
theorem drug_network_zero_dose_witness :
    ((fun q : ℚ => q) 0 = 0) ∧
      drugNetwork .logsigm (fun q => q) (fun q => q) (fun q => q) 1 0
        (fun _ => [1, 1]) 2 [0, 0] [0, 0] = List.replicate 2 0 :=
  ⟨rfl,
    (drug_network_zero_dose .logsigm (fun q => q) (fun q => q) (fun q => q) 1 0
        (fun _ => [1, 1]) rfl).2 2 [0, 0] [0, 0]
      (by intro d hd; rcases List.mem_cons.mp hd with h | h
          · exact h
          · simpa using h)
      (fun _ => rfl)⟩

theorem dfoldl_no_match (s : List String) (p : String) (k : Nat) (acc : Option Nat)
    (h : p ∉ s) :
    (List.enumFrom k s).foldl (fun acc e => if e.2 = p then some e.1 else acc) acc = acc := by
  induction s generalizing k acc with
  | nil => rfl
  | cons a t ih =>
    show ((k, a) :: List.enumFrom (k + 1) t).foldl _ acc = acc
    rw [List.foldl_cons]
    show (List.enumFrom (k + 1) t).foldl _ (if a = p then some k else acc) = acc
    rw [if_neg (show ¬ (a = p) from
      fun he => h (List.mem_cons.mpr (Or.inl he.symm)))]
    exact ih (k + 1) acc (fun hm => h (List.mem_cons_of_mem a hm))

theorem dfoldl_nodup_found (s : List String) (p : String) (k i : Nat)
    (h : i < s.length) (hget : s.get ⟨i, h⟩ = p) (hnd : s.Nodup) (acc : Option Nat) :
    (List.enumFrom k s).foldl (fun acc e => if e.2 = p then some e.1 else acc) acc =
      some (k + i) := by
  induction s generalizing k i acc with
  | nil => exact absurd h (by simp)
  | cons a t ih =>
    show ((k, a) :: List.enumFrom (k + 1) t).foldl _ acc = some (k + i)
    rw [List.foldl_cons]
    show (List.enumFrom (k + 1) t).foldl _ (if a = p then some k else acc) = some (k + i)
    cases i with
    | zero =>
      have ha : a = p := hget
      rw [if_pos ha]
      have hnot : p ∉ t := fun hm => (List.nodup_cons.mp hnd).1 (ha ▸ hm)
      rw [dfoldl_no_match t p (k + 1) (some k) hnot]
      rfl
    | succ j =>
      have hj : j < t.length := Nat.lt_of_succ_lt_succ h
      have htget : t.get ⟨j, hj⟩ = p := hget
      have hane : ¬ (a = p) := fun he =>
        (List.nodup_cons.mp hnd).1 (he ▸ htget ▸ List.get_mem t j hj)
      rw [if_neg hane]
      rw [ih (k + 1) j hj htget (List.nodup_cons.mp hnd).2 acc]
      congr 1
      omega

/-- Claim C10: when `CPA.setup_anndata` builds a fresh perturbation
vocabulary, the name-to-index mapping sends the reserved `<PAD>` token to
index 0 (the padding index constant), the control-group token to index 1,
and the remaining perturbation names, in sorted order, to indices 2 and up;
the map is a bijection from the vocabulary onto the consecutive integers
`0..n-1` (the vocabulary list maps exactly onto `range n`, and every name
outside it maps to nothing). -/
theorem pert_encoder_vocabulary (perturbations : List String) (controlGroup : String)
    (hpad : "<PAD>" ∉ CPA.pertsNamesUnique perturbations controlGroup)
    (hctrl : controlGroup ≠ "<PAD>") :
    CPA.PADDING_IDX = 0 ∧
    CPA.pert_encoder perturbations controlGroup "<PAD>" = some CPA.PADDING_IDX ∧
    CPA.pert_encoder perturbations controlGroup controlGroup = some 1 ∧
    (∀ (i : Nat) (h : i < (CPA.sortedPerts perturbations controlGroup).length),
      CPA.pert_encoder perturbations controlGroup
        ((CPA.sortedPerts perturbations controlGroup).get ⟨i, h⟩) = some (i + 2)) ∧
    List.Sorted (fun a b => a ≤ b) (CPA.sortedPerts perturbations controlGroup) ∧
    (CPA.sortedPerts perturbations controlGroup).Perm
      (CPA.pertsNamesUnique perturbations controlGroup) ∧
    (CPA.pertVocab perturbations controlGroup).map
        (CPA.pert_encoder perturbations controlGroup) =
      (List.range (CPA.pertVocab perturbations controlGroup).length).map some ∧
    (∀ p, p ∉ CPA.pertVocab perturbations controlGroup →
      CPA.pert_encoder perturbations controlGroup p = none) := by
  have hperm : (CPA.sortedPerts perturbations controlGroup).Perm
      (CPA.pertsNamesUnique perturbations controlGroup) :=
    List.perm_insertionSort _ _
  have hnodup : (CPA.sortedPerts perturbations controlGroup).Nodup :=
    hperm.nodup_iff.mpr (List.nodup_dedup _)
  have hpad_s : "<PAD>" ∉ CPA.sortedPerts perturbations controlGroup :=
    fun hm => hpad (hperm.mem_iff.mp hm)
  have hctrl_u : controlGroup ∉ CPA.pertsNamesUnique perturbations controlGroup := by
    intro hm
    have := List.mem_filter.mp (List.mem_dedup.mp hm)
    simp at this
  have hctrl_s : controlGroup ∉ CPA.sortedPerts perturbations controlGroup :=
    fun hm => hctrl_u (hperm.mem_iff.mp hm)
  have hpadlook : CPA.pert_encoder perturbations controlGroup "<PAD>" = some 0 := by
    show ((0, "<PAD>") :: (1, controlGroup) ::
        List.enumFrom 2 (CPA.sortedPerts perturbations controlGroup)).foldl
        (fun acc e => if e.2 = "<PAD>" then some e.1 else acc) none = some 0
    rw [List.foldl_cons, List.foldl_cons]
    rw [dfoldl_no_match _ _ 2 _ hpad_s]
    show (if controlGroup = "<PAD>" then some 1
      else if "<PAD>" = "<PAD>" then some 0 else none) = some 0
    rw [if_neg hctrl]
    exact if_pos rfl
  have hctrllook : CPA.pert_encoder perturbations controlGroup controlGroup = some 1 := by
    show ((0, "<PAD>") :: (1, controlGroup) ::
        List.enumFrom 2 (CPA.sortedPerts perturbations controlGroup)).foldl
        (fun acc e => if e.2 = controlGroup then some e.1 else acc) none = some 1
    rw [List.foldl_cons, List.foldl_cons]
    rw [dfoldl_no_match _ _ 2 _ hctrl_s]
    show (if controlGroup = controlGroup then some 1
      else if "<PAD>" = controlGroup then some 0 else none) = some 1
    exact if_pos rfl
  have hsortlook : ∀ (i : Nat)
      (h : i < (CPA.sortedPerts perturbations controlGroup).length),
      CPA.pert_encoder perturbations controlGroup
        ((CPA.sortedPerts perturbations controlGroup).get ⟨i, h⟩) = some (i + 2) := by
    intro i h
    show ((0, "<PAD>") :: (1, controlGroup) ::
        List.enumFrom 2 (CPA.sortedPerts perturbations controlGroup)).foldl
        (fun acc e =>
          if e.2 = (CPA.sortedPerts perturbations controlGroup).get ⟨i, h⟩
          then some e.1 else acc) none = some (i + 2)
    rw [List.foldl_cons, List.foldl_cons]
    rw [dfoldl_nodup_found _ _ 2 i h rfl hnodup _]
    congr 1
    omega
  have hnone : ∀ p, p ∉ CPA.pertVocab perturbations controlGroup →
      CPA.pert_encoder perturbations controlGroup p = none := by
    intro p hp
    have h3 : p ∉ CPA.sortedPerts perturbations controlGroup :=
      fun hm => hp (List.mem_cons_of_mem _ (List.mem_cons_of_mem _ hm))
    show ((0, "<PAD>") :: (1, controlGroup) ::
        List.enumFrom 2 (CPA.sortedPerts perturbations controlGroup)).foldl
        (fun acc e => if e.2 = p then some e.1 else acc) none = none
    rw [List.foldl_cons, List.foldl_cons]
    rw [dfoldl_no_match _ _ 2 _ h3]
    show (if controlGroup = p then some 1
      else if "<PAD>" = p then some 0 else none) = none
    rw [if_neg (show ¬ (controlGroup = p) from
      fun he => hp (List.mem_cons_of_mem _ (List.mem_cons.mpr (Or.inl he.symm))))]
    rw [if_neg (show ¬ ("<PAD>" = p) from
      fun he => hp (List.mem_cons.mpr (Or.inl he.symm)))]
  refine ⟨rfl, hpadlook, hctrllook, hsortlook,
    List.sorted_insertionSort _ _, hperm, ?_, hnone⟩
  apply List.ext_get
  · simp
  · intro n h1 h2
    have hn : n < (CPA.pertVocab perturbations controlGroup).length := by simpa using h1
    rw [List.get_map, List.get_map, List.get_range]
    match n, hn with
    | 0, _ => exact hpadlook
    | 1, _ => exact hctrllook
    | (m + 2), hm =>
      have hms : m < (CPA.sortedPerts perturbations controlGroup).length := by
        simpa [CPA.pertVocab] using hm
      have hv : (CPA.pertVocab perturbations controlGroup).get
          ⟨m + 2, by simpa using hm⟩ =
          (CPA.sortedPerts perturbations controlGroup).get ⟨m, hms⟩ := rfl
      rw [hv]
      exact hsortlook m hms

/-- Witness for claim C10 on a concrete dataset with two drugs and a
control group. -/
theorem pert_encoder_vocabulary_witness :
    ("<PAD>" ∉ CPA.pertsNamesUnique ["d2+d1", "ctrl"] "ctrl") ∧
      CPA.pert_encoder ["d2+d1", "ctrl"] "ctrl" "<PAD>" = some CPA.PADDING_IDX ∧
      CPA.pert_encoder ["d2+d1", "ctrl"] "ctrl" "ctrl" = some 1 :=
  ⟨by decide,
    (pert_encoder_vocabulary ["d2+d1", "ctrl"] "ctrl" (by decide) (by decide)).2.1,
    (pert_encoder_vocabulary ["d2+d1", "ctrl"] "ctrl" (by decide) (by decide)).2.2.1⟩
